import Mathlib

/-!
Verification development for the `google-pm` feature-request pipeline
(`src/google-product-manager.ipynb`).

The notebook's core is: TF-IDF vectorization of cleaned issue descriptions,
K-means clustering, per-cluster top-term labels, an aggregation pass that
assigns every issue to a cluster and accumulates issue/vote counters, and a
min-max normalized scoring pass followed by a ranking sort.

The aggregation, scoring and ranking cells are translated directly from the
notebook's Python.  The vectorizer and the clustering engine live in the
scikit-learn / numpy libraries, which are not part of this repository; those
parts are modelled from the specification's description of their contracts
(each such definition carries a `Modelled from the spec:` doc comment).
Python floats are modelled by exact rationals (`ℚ`).
-/

namespace GooglePM

/-! ## List utilities -/

/-- Replaces the element at position `j` by `f` of it; an out-of-range index
leaves the list unchanged.  This models Python's in-place mutation of a list
element (`xs[j] = f(xs[j])`). -/
def modifyAt {α : Type} (f : α → α) : List α → Nat → List α
  | [], _ => []
  | x :: xs, 0 => f x :: xs
  | x :: xs, n+1 => x :: modifyAt f xs n

/-- Stable insertion of `a` into `l`: `a` is placed before the first element
`b` with `le a b`; on ties (`le` holding both ways) the element arriving
first keeps the earlier position. -/
def insertStable {α : Type} (le : α → α → Bool) (a : α) : List α → List α
  | [] => [a]
  | b :: bs => if le a b then a :: b :: bs else b :: insertStable le a bs

/-- Stable insertion sort.  Python's `sorted` is specified to be a stable
sort, and the stable sort for a given total preorder is extensionally unique,
so this is a faithful model of `sorted` (with `le a b` meaning "`a` may come
before `b`"). -/
def sortStable {α : Type} (le : α → α → Bool) (l : List α) : List α :=
  l.foldr (insertStable le) []

/-- First-occurrence deduplication, models building a set of seen values in
corpus order (the order is irrelevant to callers, which sort afterwards). -/
def distinctL {α : Type} [DecidableEq α] (l : List α) : List α :=
  l.foldl (fun acc t => if acc.contains t then acc else acc ++ [t]) []

/-- Minimum of a list of naturals, as Python's `min` on a non-empty list
(the empty case is never reached by callers, which guard non-emptiness). -/
def natMinL : List Nat → Nat
  | [] => 0
  | x :: xs => xs.foldl min x

/-- Maximum of a list of naturals, as Python's `max` on a non-empty list. -/
def natMaxL : List Nat → Nat
  | [] => 0
  | x :: xs => xs.foldl max x

/-! ## Vectorizer (scikit-learn `TfidfVectorizer`, modelled from the spec) -/

/-- Word characters of the default scikit-learn token pattern `\w\w+`. -/
def isWordChar (c : Char) : Bool := c.isAlphanum || c = '_'

/-- Splits a character stream into maximal runs of word characters; `cur`
holds the (reversed) run being read. -/
def splitRuns : List Char → List Char → List (List Char)
  | [], cur => if cur.isEmpty then [] else [cur.reverse]
  | c :: cs, cur =>
    if isWordChar c then splitRuns cs (c :: cur)
    else if cur.isEmpty then splitRuns cs cur
    else cur.reverse :: splitRuns cs []

/-- Modelled from the spec: tokenization of the Vectorizer (§4.1).  The
library lower-cases the text and extracts maximal word-character runs of at
least two characters (scikit-learn's default `lowercase=True` and token
pattern `\w\w+`); that tokenizer is reproduced here. -/
def tokenize (s : String) : List String :=
  ((splitRuns (s.data.map Char.toLower) []).filter (fun w => 2 ≤ w.length)).map String.mk

/-- Modelled from the spec: the "standard English stopwords" of §4.1.  The
concrete frozen list lives in scikit-learn (`text.ENGLISH_STOP_WORDS`),
outside this repository; reproduced here is the classic Glasgow
information-retrieval list that the library uses. -/
def englishStopWords : List String :=
  ["a", "about", "above", "across", "after", "afterwards", "again", "against",
   "all", "almost", "alone", "along", "already", "also", "although", "always",
   "am", "among", "amongst", "amoungst", "amount", "an", "and", "another",
   "any", "anyhow", "anyone", "anything", "anyway", "anywhere", "are",
   "around", "as", "at", "back", "be", "became", "because", "become",
   "becomes", "becoming", "been", "before", "beforehand", "behind", "being",
   "below", "beside", "besides", "between", "beyond", "bill", "both",
   "bottom", "but", "by", "call", "can", "cannot", "cant", "co", "con",
   "could", "couldnt", "cry", "de", "describe", "detail", "do", "done",
   "down", "due", "during", "each", "eg", "eight", "either", "eleven",
   "else", "elsewhere", "empty", "enough", "etc", "even", "ever", "every",
   "everyone", "everything", "everywhere", "except", "few", "fifteen",
   "fifty", "fill", "find", "fire", "first", "five", "for", "former",
   "formerly", "forty", "found", "four", "from", "front", "full", "further",
   "get", "give", "go", "had", "has", "hasnt", "have", "he", "hence", "her",
   "here", "hereafter", "hereby", "herein", "hereupon", "hers", "herself",
   "him", "himself", "his", "how", "however", "hundred", "i", "ie", "if",
   "in", "inc", "indeed", "interest", "into", "is", "it", "its", "itself",
   "keep", "last", "latter", "latterly", "least", "less", "ltd", "made",
   "many", "may", "me", "meanwhile", "might", "mill", "mine", "more",
   "moreover", "most", "mostly", "move", "much", "must", "my", "myself",
   "name", "namely", "neither", "never", "nevertheless", "next", "nine",
   "no", "nobody", "none", "noone", "nor", "not", "nothing", "now",
   "nowhere", "of", "off", "often", "on", "once", "one", "only", "onto",
   "or", "other", "others", "otherwise", "our", "ours", "ourselves", "out",
   "over", "own", "part", "per", "perhaps", "please", "put", "rather", "re",
   "same", "see", "seem", "seemed", "seeming", "seems", "serious", "several",
   "she", "should", "show", "side", "since", "sincere", "six", "sixty", "so",
   "some", "somehow", "someone", "something", "sometime", "sometimes",
   "somewhere", "still", "such", "system", "take", "ten", "than", "that",
   "the", "their", "them", "themselves", "then", "thence", "there",
   "thereafter", "thereby", "therefore", "therein", "thereupon", "these",
   "they", "thick", "thin", "third", "this", "those", "though", "three",
   "through", "throughout", "thru", "thus", "to", "together", "too", "top",
   "toward", "towards", "twelve", "twenty", "two", "un", "under", "until",
   "up", "upon", "us", "very", "via", "was", "we", "well", "were", "what",
   "whatever", "when", "whence", "whenever", "where", "whereafter",
   "whereas", "whereby", "wherein", "whereupon", "wherever", "whether",
   "which", "while", "whither", "who", "whoever", "whole", "whom", "whose",
   "why", "will", "with", "within", "without", "would", "yet", "you",
   "your", "yours", "yourself", "yourselves"]

/-- The extra stop words configured in the source notebook (verbatim,
including the duplicated `"requests"` entry). -/
def extraStopWords : List String :=
  ["feature", "features", "issue", "issues", "requests", "requests",
   "thing", "things", "google"]

/-- The notebook's `stop_words = text.ENGLISH_STOP_WORDS.union(extra_stop_words)`;
only membership matters, so the union is modelled by append. -/
def notebookStopWords : List String := englishStopWords ++ extraStopWords

/-- Joins tokens with single spaces, as scikit-learn renders an n-gram. -/
def joinSpace : List String → String
  | [] => ""
  | [t] => t
  | t :: ts => t ++ " " ++ joinSpace ts

/-- All contiguous `n`-grams of a token list, in reading order. -/
def ngramsOf (n : Nat) : List String → List String
  | [] => []
  | t :: ts =>
    (if n ≤ ts.length + 1 then [joinSpace ((t :: ts).take n)] else []) ++ ngramsOf n ts

/-- Configuration surface of the Vectorizer: stop words and the n-gram
range, the knobs the notebook sets (`stop_words=...`, `ngram_range=...`). -/
structure VecConfig where
  stopWords : List String
  ngramMin : Nat
  ngramMax : Nat
deriving Repr, DecidableEq

/-- Terms (n-grams over stopword-filtered tokens) of one document, in
reading order.  Stop words are removed before n-grams are formed, as in the
library. -/
def docTerms (cfg : VecConfig) (s : String) : List String :=
  let toks := (tokenize s).filter (fun t => ¬ cfg.stopWords.contains t)
  (List.range' cfg.ngramMin (cfg.ngramMax + 1 - cfg.ngramMin)).flatMap
    (fun n => ngramsOf n toks)

/-- Number of fit-time documents containing term `t`. -/
def docFreq (cfg : VecConfig) (corpus : List String) (t : String) : Nat :=
  (corpus.filter (fun d => (docTerms cfg d).contains t)).length

/-- String comparison used to order the vocabulary (scikit-learn sorts the
vocabulary alphabetically by term). -/
def stringLe (s t : String) : Bool := decide (s ≤ t)

/-- The frozen state of a fitted vectorizer: its configuration, the number
of fit-time documents, the vocabulary in its fixed (alphabetical) order, and
the per-term document frequencies computed at fit time. -/
structure FittedVectorizer where
  cfg : VecConfig
  nDocs : Nat
  terms : List String
  dfs : List Nat
deriving Repr, DecidableEq

/-- Modelled from the spec: the inverse-document-frequency factor of §4.1
("inverse document frequency computed from the fit-time corpus — frozen
after fitting").  The library's exact log-smoothed formula is part of
scikit-learn, not of this repository; it is modelled by the smoothed inverse
frequency `(nDocs + 1) / (df + 1)`, which is positive and strictly
decreasing in the document frequency — the only facts the claims use. -/
def idfQ (nDocs df : Nat) : ℚ := ((nDocs : ℚ) + 1) / ((df : ℚ) + 1)

/-- Modelled from the spec: `fit` of §4.1 — builds the frozen vocabulary
(alphabetically ordered, deduplicated) and its document frequencies. -/
def fitVectorizer (cfg : VecConfig) (corpus : List String) : FittedVectorizer :=
  let ts := sortStable stringLe (distinctL (corpus.map (docTerms cfg)).flatten)
  { cfg := cfg, nDocs := corpus.length, terms := ts,
    dfs := ts.map (docFreq cfg corpus) }

/-- Modelled from the spec: `transform` of §4.1 — maps any text into the
frozen vocabulary space; weight of term `t` is its frequency in the document
times the frozen idf factor.  Out-of-vocabulary terms contribute nothing and
never cause an error; an empty document gives the all-zero vector. -/
def transform (V : FittedVectorizer) (s : String) : List ℚ :=
  let dts := docTerms V.cfg s
  (V.terms.zip V.dfs).map (fun td => (dts.count td.1 : ℚ) * idfQ V.nDocs td.2)

/-! ## Clustering engine (scikit-learn `KMeans`, modelled from the spec) -/

/-- Squared Euclidean distance between two vectors of the vocabulary space. -/
def sqDist (u v : List ℚ) : ℚ :=
  ((u.zip v).map (fun p => (p.1 - p.2) * (p.1 - p.2))).sum

/-- Index of the first minimal element: `best`/`bv` track the best index and
value so far, `cur` the index of the head of the remaining list.  A strictly
smaller value is required to replace the current best, so ties go to the
lowest index. -/
def idxOfMinAux : List ℚ → ℚ → Nat → Nat → Nat
  | [], _, best, _ => best
  | x :: xs, bv, best, cur =>
    if x < bv then idxOfMinAux xs x cur (cur + 1) else idxOfMinAux xs bv best (cur + 1)

/-- Index of the first minimal element of a list (0 on the empty list, which
callers never pass). -/
def idxOfMin : List ℚ → Nat
  | [] => 0
  | x :: xs => idxOfMinAux xs x 0 1

/-- Modelled from the spec: step (a) of §4.2 and `predict` — assign a vector
to the centroid minimizing Euclidean distance, ties broken by lowest
centroid index.  Reads the centroids only; nothing is mutated. -/
def assign (cents : List (List ℚ)) (v : List ℚ) : Nat :=
  idxOfMin (cents.map (fun c => sqDist c v))

/-- Componentwise sum of a non-empty family of equal-length vectors. -/
def vecSum : List (List ℚ) → List ℚ
  | [] => []
  | [v] => v
  | v :: vs => ((vecSum vs).zip v).map (fun p => p.1 + p.2)

/-- Modelled from the spec: step (b) of §4.2 — recompute centroid `k` as the
mean of its assigned rows, leaving it unchanged if it has zero assigned
rows. -/
def centroidUpdate (rows : List (List ℚ)) (labels : List Nat) (k : Nat)
    (old : List ℚ) : List ℚ :=
  let assigned := ((rows.zip labels).filter (fun rl => rl.2 == k)).map (fun rl => rl.1)
  if assigned.isEmpty then old
  else (vecSum assigned).map (fun q => q / (assigned.length : ℚ))

/-- Modelled from the spec: the training iteration of §4.2 — starting from
given initial centroids, repeatedly assign all rows and recompute the
centroids, stopping when no row changes assignment or when the iteration cap
(`fuel`, the notebook's `max_iter=100`) is reached. -/
def lloydLoop (rows : List (List ℚ)) : List (List ℚ) → Nat → List (List ℚ)
  | cents, 0 => cents
  | cents, fuel+1 =>
    let labels := rows.map (assign cents)
    let cents2 := (List.range cents.length).map
      (fun k => centroidUpdate rows labels k (cents.getD k []))
    if rows.map (assign cents2) == labels then cents2
    else lloydLoop rows cents2 fuel

/-- Failure modes of clustering training (§7). -/
inductive ClusterTrainError where
  | invalidClusterCount : ClusterTrainError
  | emptyCorpus : ClusterTrainError
deriving Repr, DecidableEq

/-- Tests whether a document's vector is all-zero (an "empty" document). -/
def isZeroVec (v : List ℚ) : Bool := v.all (fun q => q == 0)

/-- Number of distinct documents with non-zero vectors among the rows. -/
def distinctNonzeroCount (rows : List (List ℚ)) : Nat :=
  (distinctL (rows.filter (fun v => ¬ isZeroVec v))).length

/-- Modelled from the spec: the validation of §4.2/§7 — training fails with
`InvalidClusterCount` exactly when `K < 1` or `K` exceeds the number of
distinct documents with non-zero vectors.  The library's own validation is
part of scikit-learn, not of this repository. -/
def validateClusterCount (k : Nat) (rows : List (List ℚ)) :
    Except ClusterTrainError Unit :=
  if k < 1 ∨ distinctNonzeroCount rows < k then
    Except.error ClusterTrainError.invalidClusterCount
  else Except.ok ()

/-! ## Cluster labeler -/

/-- Contract of `numpy.argsort` on one centroid row, for any sort kind: a
permutation of the column indices along which the weights are
non-decreasing.  numpy's default kind (quicksort/introsort) is documented
as unstable, so the relative order of equal weights is NOT specified; every
index list satisfying this predicate is an admissible result, and
guarantees about the labeler are stated for all of them. -/
def isArgsortAsc (w : List ℚ) (ord : List Nat) : Prop :=
  ord.Perm (List.range w.length)
  ∧ ord.Pairwise (fun i j => w.getD i 0 ≤ w.getD j 0)

/-- The notebook's per-cluster labels applied to an argsort result `ord`:
`order_centroids = cluster_centers_.argsort()[:, ::-1]` reverses the
ascending order, and `[terms[x] for x in order_centroids[i, :n]]` keeps the
first `n` indices and maps them through the vocabulary. -/
def clusterFeaturesOf (terms : List String) (ord : List Nat) (n : Nat) :
    List String :=
  ((ord.reverse).take n).map (fun i => terms.getD i "")

/-- One admissible ascending argsort of a weight vector, used to run the
concrete pipeline: the indices `0, …, n-1` sorted by weight with an
insertion sort.  On rows below numpy's small-array insertion-sort cutoff —
such as every centroid row appearing in this development — this coincides
with what numpy actually computes; on longer rows numpy's unstable default
kind may order equal weights differently, which is why the labeler
guarantees are proved for every `isArgsortAsc` result rather than for this
realization alone. -/
def argsortAsc (w : List ℚ) : List Nat :=
  sortStable (fun i j => decide (w.getD i 0 ≤ w.getD j 0)) (List.range w.length)

/-- The notebook's per-cluster labels computed with the concrete argsort
realization above. -/
def clusterFeatures (terms : List String) (w : List ℚ) (n : Nat) : List String :=
  clusterFeaturesOf terms (argsortAsc w) n

/-! ## Clusters and issues (notebook cells 11 and 9) -/

/-- The cluster record built in the notebook: `{'index': i, 'features': …,
'votes': 0, 'issues': 0}`.  `votes` and `issues` are the running counters
filled by the aggregation pass. -/
structure Cluster where
  index : Nat
  features : List String
  votes : Nat
  issues : Nat
deriving Repr, DecidableEq

/-- The notebook's cluster-list construction: one record per `i in
range(number_of_clusters)`, with the top-10 centroid terms as features. -/
def mkClusters (k : Nat) (terms : List String) (cents : List (List ℚ)) :
    List Cluster :=
  (List.range k).map (fun i =>
    { index := i, features := clusterFeatures terms (cents.getD i []) 10,
      votes := 0, issues := 0 })

/-- The issue record built in the notebook (cell 9): `{'id': …, 'votes': …,
'dirty_dsecription': …, 'description': …}` (the misspelt key is the
notebook's).  The `prediction` key is added only by the aggregation pass, so
it is modelled as an `Option`; two records are equal exactly when all their
keys and values agree, as for Python dicts. -/
structure Issue where
  id : Nat
  votes : Nat
  dirty_dsecription : String
  description : String
  prediction : Option Nat
deriving Repr, DecidableEq

/-! ## Assignment and aggregation (notebook cell 15) -/

/-- Adds one issue with `v` votes to a cluster's counters (`cluster['votes']
+= issue['votes']; cluster['issues'] += 1`). -/
def bumpCluster (v : Nat) (c : Cluster) : Cluster :=
  { c with votes := c.votes + v, issues := c.issues + 1 }

/-- The notebook's counter reset: `for cluster in clusters:
cluster['votes'] = 0; cluster['issues'] = 0`. -/
def resetCounters (cs : List Cluster) : List Cluster :=
  cs.map (fun c => { c with votes := 0, issues := 0 })

/-- Sets an issue's `prediction` key to its predicted cluster. -/
def markIssue (pred : String → Nat) (it : Issue) : Issue :=
  { it with prediction := some (pred it.description) }

/-- One iteration of the notebook's aggregation loop at position `i` of the
issue list.  Faithful to the Python, including its quirks:
`issues[issues.index(issue)]['prediction'] = prediction[0]` writes the
prediction to the *first* record equal to the current one, and
`clusters[issue['prediction']]` then reads the `prediction` key back from
the record at position `i` — a missing key (`none`) or an out-of-range
cluster index is a runtime error, modelled by `Option.none`. -/
def aggStep (pred : String → Nat) (st : List Cluster × List Issue) (i : Nat) :
    Option (List Cluster × List Issue) :=
  match st.2[i]? with
  | none => none
  | some issue =>
    let p := pred issue.description
    let j := st.2.findIdx (fun x => decide (x = issue))
    let iss2 := modifyAt (fun it => { it with prediction := some p }) st.2 j
    match iss2[i]? with
    | none => none
    | some issue2 =>
      match issue2.prediction with
      | none => none
      | some q =>
        if q < st.1.length then
          some (modifyAt (bumpCluster issue.votes) st.1 q, iss2)
        else none

/-- Runs `fuel` aggregation iterations starting at position `i` (the
notebook's `for issue in issues` visits positions `0, …, len-1` of the list
it is mutating; the mutation never changes the length). -/
def aggLoop (pred : String → Nat) :
    List Cluster × List Issue → Nat → Nat → Option (List Cluster × List Issue)
  | st, _, 0 => some st
  | st, i, fuel+1 =>
    match aggStep pred st i with
    | none => none
    | some st2 => aggLoop pred st2 (i+1) fuel

/-- The notebook's full aggregation pass (cell 15): reset every cluster's
counters, then walk the issue list, predicting, recording and accumulating.
`pred` is the composite `feature_model.predict(vectorizer.transform([·]))`. -/
def aggregatePass (pred : String → Nat) (cs : List Cluster) (iss : List Issue) :
    Option (List Cluster × List Issue) :=
  aggLoop pred (resetCounters cs, iss) 0 iss.length

/-- The intended effect of one aggregation pass on the counters: fold the
issues, bumping the predicted cluster of each. -/
def specAccum (pred : String → Nat) (cs : List Cluster) (iss : List Issue) :
    List Cluster :=
  iss.foldl (fun acc it => modifyAt (bumpCluster it.votes) acc (pred it.description)) cs

/-! ## Scoring and ranking (notebook cells 19) -/

/-- A cluster record after the scoring pass has attached the `vote_score`,
`issue_score` and `score` keys. -/
structure ScoredCluster where
  index : Nat
  features : List String
  votes : Nat
  issues : Nat
  vote_score : ℚ
  issue_score : ℚ
  score : ℚ
deriving Repr, DecidableEq

/-- The notebook's scoring pass (cell 19), translated directly:
`vote_score = vote_multiplier * ((votes - min_votes) / (max_votes - min_votes))`,
likewise for `issue_score`, and `score` their average.  Python's `min`/`max`
on an empty list and its division by a zero denominator raise, which is
modelled by `none`; there is no degenerate-range guard in the source. -/
def scoreClusters (vm im : ℚ) (cs : List Cluster) : Option (List ScoredCluster) :=
  match cs with
  | [] => none
  | _ :: _ =>
    let minV := natMinL (cs.map (fun c => c.votes))
    let maxV := natMaxL (cs.map (fun c => c.votes))
    let minI := natMinL (cs.map (fun c => c.issues))
    let maxI := natMaxL (cs.map (fun c => c.issues))
    if maxV = minV ∨ maxI = minI then none
    else some (cs.map (fun c =>
      let vs := vm * (((c.votes : ℚ) - (minV : ℚ)) / ((maxV : ℚ) - (minV : ℚ)))
      let is := im * (((c.issues : ℚ) - (minI : ℚ)) / ((maxI : ℚ) - (minI : ℚ)))
      { index := c.index, features := c.features, votes := c.votes,
        issues := c.issues, vote_score := vs, issue_score := is,
        score := (vs + is) / 2 }))

/-- The comparison behind `sorted(clusters, key=lambda k: k['score'],
reverse=True)`: `a` may precede `b` whenever `b`'s score is no larger. -/
def scoreLe (a b : ScoredCluster) : Bool := decide (b.score ≤ a.score)

/-- The notebook's ranking: a stable descending sort by `score` (Python's
`sorted` with `reverse=True` is stable, so equal scores keep list order). -/
def clustersByScore (scs : List ScoredCluster) : List ScoredCluster :=
  sortStable scoreLe scs

/-! ## The end-to-end demonstration pipeline (spec §8) -/

/-- Configuration of the end-to-end example: the notebook's stop words with
`ngram_range = (1, 1)`. -/
def demoConfig : VecConfig :=
  { stopWords := notebookStopWords, ngramMin := 1, ngramMax := 1 }

/-- The example corpus of spec §8. -/
def demoCorpus : List String :=
  ["upgrade the api please", "please upgrade api", "add a dark mode"]

/-- The example issues: votes 5, 3 and 0 attached to the three documents. -/
def demoIssues : List Issue :=
  [{ id := 1, votes := 5, dirty_dsecription := "upgrade the api please",
     description := "upgrade the api please", prediction := none },
   { id := 2, votes := 3, dirty_dsecription := "please upgrade api",
     description := "please upgrade api", prediction := none },
   { id := 3, votes := 0, dirty_dsecription := "add a dark mode",
     description := "add a dark mode", prediction := none }]

/-- The vectorizer fitted on the example corpus. -/
def demoVectorizer : FittedVectorizer := fitVectorizer demoConfig demoCorpus

/-- The document-term matrix of the example corpus. -/
def demoRows : List (List ℚ) := demoCorpus.map (transform demoVectorizer)

/-- The trained centroids of the example, for a given choice of the two
initial centroids (the k-means++ seeding of §4.2 picks distinct data points;
the iteration cap is the notebook's 100). -/
def demoModel (init : List (List ℚ)) : List (List ℚ) := lloydLoop demoRows init 100

/-- The composite prediction function of the example pipeline. -/
def demoPredict (init : List (List ℚ)) (s : String) : Nat :=
  assign (demoModel init) (transform demoVectorizer s)

/-- The cluster list of the example pipeline (`K = 2`). -/
def demoClusters (init : List (List ℚ)) : List Cluster :=
  mkClusters 2 demoVectorizer.terms (demoModel init)

/-! ## Lemmas about the list utilities -/

theorem length_modifyAt {α : Type} (f : α → α) (l : List α) (j : Nat) :
    (modifyAt f l j).length = l.length := by
  induction l generalizing j with
  | nil => rfl
  | cons x xs ih =>
    cases j with
    | zero => rfl
    | succ n => simp [modifyAt, ih]

theorem modifyAt_eq_self {α : Type} (f : α → α) (l : List α) (j : Nat)
    (h : j < l.length) (hfix : f l[j] = l[j]) : modifyAt f l j = l := by
  induction l generalizing j with
  | nil => simp at h
  | cons x xs ih =>
    cases j with
    | zero => simpa [modifyAt] using hfix
    | succ n =>
      simp only [modifyAt, List.cons.injEq, true_and]
      exact ih n (by simpa using h) (by simpa using hfix)

theorem modifyAt_append_left {α : Type} (f : α → α) (l₁ l₂ : List α) (j : Nat)
    (h : j < l₁.length) : modifyAt f (l₁ ++ l₂) j = modifyAt f l₁ j ++ l₂ := by
  induction l₁ generalizing j with
  | nil => simp at h
  | cons x xs ih =>
    cases j with
    | zero => rfl
    | succ n => simp [modifyAt, ih n (by simpa using h)]

theorem modifyAt_append_length {α : Type} (f : α → α) (l₁ l₂ : List α) (x : α) :
    modifyAt f (l₁ ++ x :: l₂) l₁.length = l₁ ++ f x :: l₂ := by
  induction l₁ with
  | nil => rfl
  | cons y ys ih => simp [modifyAt, ih]

theorem map_modifyAt_invariant {α β : Type} (g : α → β) (f : α → α) (l : List α)
    (j : Nat) (hinv : ∀ x, g (f x) = g x) :
    (modifyAt f l j).map g = l.map g := by
  induction l generalizing j with
  | nil => rfl
  | cons x xs ih =>
    cases j with
    | zero => simp [modifyAt, hinv]
    | succ n => simp [modifyAt, ih]

theorem map_sum_modifyAt (g : Cluster → Nat) (f : Cluster → Cluster)
    (l : List Cluster) (j : Nat) (h : j < l.length) :
    ((modifyAt f l j).map g).sum + g l[j] = (l.map g).sum + g (f l[j]) := by
  induction l generalizing j with
  | nil => simp at h
  | cons x xs ih =>
    cases j with
    | zero => simp [modifyAt]; omega
    | succ n =>
      have := ih n (by simpa using h)
      simp only [modifyAt, List.map_cons, List.sum_cons, List.getElem_cons_succ]
      omega

theorem insertStable_perm {α : Type} (le : α → α → Bool) (a : α) (l : List α) :
    (insertStable le a l).Perm (a :: l) := by
  induction l with
  | nil => exact List.Perm.refl _
  | cons b bs ih =>
    by_cases h : le a b = true
    · simp [insertStable, h]
    · simp only [insertStable, if_neg h]
      exact (ih.cons b).trans (List.Perm.swap a b bs)

theorem sortStable_perm {α : Type} (le : α → α → Bool) (l : List α) :
    (sortStable le l).Perm l := by
  induction l with
  | nil => exact List.Perm.refl _
  | cons a t ih =>
    exact (insertStable_perm le a (sortStable le t)).trans (ih.cons a)

theorem mem_insertStable {α : Type} {le : α → α → Bool} {a x : α} {l : List α} :
    x ∈ insertStable le a l ↔ x = a ∨ x ∈ l := by
  rw [(insertStable_perm le a l).mem_iff]
  simp

theorem insertStable_pairwise {α : Type} {le : α → α → Bool} {P : α → α → Prop}
    (htot : ∀ x y, le x y = true ∨ le y x = true)
    (htrans : ∀ x y z, le x y = true → le y z = true → le x z = true)
    (a : α) (l : List α)
    (hl : l.Pairwise (fun x y => le x y = true ∧ (le y x = true → P x y)))
    (ha : ∀ b ∈ l, P a b) :
    (insertStable le a l).Pairwise
      (fun x y => le x y = true ∧ (le y x = true → P x y)) := by
  induction l with
  | nil => simp [insertStable]
  | cons b bs ih =>
    rcases List.pairwise_cons.mp hl with ⟨hb, hbs⟩
    by_cases h : le a b = true
    · simp only [insertStable, if_pos h]
      refine List.pairwise_cons.mpr ⟨?_, hl⟩
      intro c hc
      rcases List.mem_cons.mp hc with h1 | hc
      · rw [h1]
        exact ⟨h, fun _ => ha b (List.mem_cons_self _ _)⟩
      · exact ⟨htrans a b c h (hb c hc).1, fun _ => ha c (List.mem_cons_of_mem _ hc)⟩
    · simp only [insertStable, if_neg h]
      refine List.pairwise_cons.mpr ⟨?_, ?_⟩
      · intro c hc
        rcases mem_insertStable.mp hc with h1 | hc
        · rw [h1]
          refine ⟨?_, fun hca => absurd hca h⟩
          rcases htot a b with h' | h'
          · exact absurd h' h
          · exact h'
        · exact hb c hc
      · exact ih hbs (fun c hc => ha c (List.mem_cons_of_mem _ hc))

theorem sortStable_pairwise {α : Type} {le : α → α → Bool} {P : α → α → Prop}
    (htot : ∀ x y, le x y = true ∨ le y x = true)
    (htrans : ∀ x y z, le x y = true → le y z = true → le x z = true)
    (l : List α) (hl : l.Pairwise P) :
    (sortStable le l).Pairwise
      (fun x y => le x y = true ∧ (le y x = true → P x y)) := by
  induction l with
  | nil => simp [sortStable]
  | cons a t ih =>
    rcases List.pairwise_cons.mp hl with ⟨haP, htP⟩
    refine insertStable_pairwise htot htrans a (sortStable le t) (ih htP) ?_
    intro b hb
    exact haP b ((sortStable_perm le t).mem_iff.mp hb)

theorem foldl_min_le_init (xs : List Nat) : ∀ acc : Nat, xs.foldl min acc ≤ acc := by
  induction xs with
  | nil => intro acc; simp
  | cons x t ih =>
    intro acc
    calc (x :: t).foldl min acc = t.foldl min (min acc x) := rfl
    _ ≤ min acc x := ih _
    _ ≤ acc := Nat.min_le_left _ _

theorem foldl_min_le_mem (xs : List Nat) :
    ∀ (acc a : Nat), a ∈ xs → xs.foldl min acc ≤ a := by
  induction xs with
  | nil => intro _ _ h; simp at h
  | cons x t ih =>
    intro acc a ha
    rcases List.mem_cons.mp ha with rfl | ha
    · exact (foldl_min_le_init t _).trans (Nat.min_le_right _ _)
    · exact ih _ a ha

theorem init_le_foldl_max (xs : List Nat) : ∀ acc : Nat, acc ≤ xs.foldl max acc := by
  induction xs with
  | nil => intro acc; simp
  | cons x t ih =>
    intro acc
    calc acc ≤ max acc x := Nat.le_max_left _ _
    _ ≤ t.foldl max (max acc x) := ih _
    _ = (x :: t).foldl max acc := rfl

theorem mem_le_foldl_max (xs : List Nat) :
    ∀ (acc a : Nat), a ∈ xs → a ≤ xs.foldl max acc := by
  induction xs with
  | nil => intro _ _ h; simp at h
  | cons x t ih =>
    intro acc a ha
    rcases List.mem_cons.mp ha with rfl | ha
    · exact (Nat.le_max_right acc a).trans (init_le_foldl_max t _)
    · exact ih _ a ha

theorem natMinL_le_of_mem {l : List Nat} {a : Nat} (h : a ∈ l) : natMinL l ≤ a := by
  cases l with
  | nil => simp at h
  | cons x xs =>
    rcases List.mem_cons.mp h with rfl | h
    · exact foldl_min_le_init xs a
    · exact foldl_min_le_mem xs x a h

theorem le_natMaxL_of_mem {l : List Nat} {a : Nat} (h : a ∈ l) : a ≤ natMaxL l := by
  cases l with
  | nil => simp at h
  | cons x xs =>
    rcases List.mem_cons.mp h with rfl | h
    · exact init_le_foldl_max xs a
    · exact mem_le_foldl_max xs x a h

theorem findIdx_append_none {α : Type} (p : α → Bool) (l₁ l₂ : List α)
    (h : ∀ x ∈ l₁, p x = false) :
    (l₁ ++ l₂).findIdx p = l₁.length + l₂.findIdx p := by
  induction l₁ with
  | nil => simp
  | cons x xs ih =>
    have hx : p x = false := h x (List.mem_cons_self _ _)
    simp only [List.cons_append, List.findIdx_cons, hx, cond_false, List.length_cons]
    rw [ih (fun y hy => h y (List.mem_cons_of_mem _ hy))]
    omega

theorem findIdx_append_some {α : Type} (p : α → Bool) (l₁ l₂ : List α)
    (h : ∃ x ∈ l₁, p x) :
    (l₁ ++ l₂).findIdx p = l₁.findIdx p := by
  induction l₁ with
  | nil => simp at h
  | cons x xs ih =>
    by_cases hx : p x = true
    · simp [List.findIdx_cons, hx]
    · have hx' : p x = false := by simpa using hx
      simp only [List.cons_append, List.findIdx_cons, hx', cond_false]
      rw [ih]
      rcases h with ⟨y, hy, hpy⟩
      rcases List.mem_cons.mp hy with h1 | hy'
      · rw [h1] at hpy; exact absurd hpy hx
      · exact ⟨y, hy', hpy⟩

theorem idxOfMinAux_lt (xs : List ℚ) :
    ∀ (bv : ℚ) (best cur : Nat), best < cur →
      idxOfMinAux xs bv best cur < cur + xs.length := by
  induction xs with
  | nil => intro bv best cur h; simpa [idxOfMinAux] using h
  | cons x t ih =>
    intro bv best cur h
    simp only [idxOfMinAux, List.length_cons]
    by_cases hx : x < bv
    · simp only [if_pos hx]
      have := ih x cur (cur + 1) (Nat.lt_succ_self _)
      omega
    · simp only [if_neg hx]
      have := ih bv best (cur + 1) (by omega)
      omega

theorem idxOfMin_lt_length {l : List ℚ} (h : l ≠ []) : idxOfMin l < l.length := by
  cases l with
  | nil => exact absurd rfl h
  | cons x xs =>
    have := idxOfMinAux_lt xs x 0 1 Nat.one_pos
    simp only [idxOfMin, List.length_cons]
    omega

theorem lloydLoop_length (rows : List (List ℚ)) :
    ∀ (fuel : Nat) (cents : List (List ℚ)),
      (lloydLoop rows cents fuel).length = cents.length := by
  intro fuel
  induction fuel with
  | zero => intro cents; rfl
  | succ n ih =>
    intro cents
    simp only [lloydLoop]
    split
    · simp
    · rw [ih]
      simp

/-! ## Lemmas about the aggregation pass -/

theorem findIdx_getElem_eq {α : Type} (p : α → Bool) (l : List α)
    (h : l.findIdx p < l.length) : p (l.get ⟨l.findIdx p, h⟩) = true := by
  induction l with
  | nil => simp at h
  | cons x xs ih =>
    by_cases hx : p x = true
    · simp [List.findIdx_cons, hx]
    · have hx' : p x = false := by simpa using hx
      simp only [List.findIdx_cons, hx', cond_false] at h ⊢
      have h' : xs.findIdx p < xs.length := by simpa using h
      simpa using ih h'

theorem markIssue_of_marked (pred : String → Nat) (it : Issue)
    (h : it.prediction = some (pred it.description)) : markIssue pred it = it := by
  cases it
  simp only [markIssue] at *
  simp only [Issue.mk.injEq, true_and]
  exact h.symm

theorem aggStep_eq (pred : String → Nat) (cls : List Cluster)
    (done todo : List Issue) (cur : Issue)
    (hdone : ∀ it ∈ done, it.prediction = some (pred it.description))
    (hrange : pred cur.description < cls.length) :
    aggStep pred (cls, done ++ cur :: todo) done.length
      = some (modifyAt (bumpCluster cur.votes) cls (pred cur.description),
              done ++ markIssue pred cur :: todo) := by
  have hget : (done ++ cur :: todo)[done.length]? = some cur := by
    rw [List.getElem?_append_right (Nat.le_refl _)]
    simp
  by_cases hmem : cur ∈ done
  · have hcurm : cur.prediction = some (pred cur.description) := hdone cur hmem
    have hex : ∃ x ∈ done, decide (x = cur) = true := ⟨cur, hmem, by simp⟩
    have hjlt : done.findIdx (fun x => decide (x = cur)) < done.length :=
      List.findIdx_lt_length_of_exists hex
    have hjeq : (done ++ cur :: todo).findIdx (fun x => decide (x = cur))
        = done.findIdx (fun x => decide (x = cur)) :=
      findIdx_append_some _ _ _ hex
    have helem : done[done.findIdx (fun x => decide (x = cur))] = cur := by
      have h2 := of_decide_eq_true (findIdx_getElem_eq (fun x => decide (x = cur)) done hjlt)
      simpa using h2
    have hfix : modifyAt (fun it => { it with prediction := some (pred cur.description) })
        (done ++ cur :: todo) ((done ++ cur :: todo).findIdx (fun x => decide (x = cur)))
        = done ++ cur :: todo := by
      rw [hjeq, modifyAt_append_left _ _ _ _ hjlt]
      rw [modifyAt_eq_self _ _ _ hjlt]
      rw [helem]
      have := markIssue_of_marked pred cur hcurm
      simpa [markIssue] using this
    simp only [aggStep, hget]
    rw [hfix, hget]
    simp only [hcurm, hrange, if_pos]
    rw [markIssue_of_marked pred cur hcurm]
  · have hnone : ∀ x ∈ done, (fun x => decide (x = cur)) x = false := by
      intro x hx
      simp only [decide_eq_false_iff_not]
      intro h
      exact hmem (h ▸ hx)
    have hjeq : (done ++ cur :: todo).findIdx (fun x => decide (x = cur))
        = done.length := by
      rw [findIdx_append_none _ _ _ hnone]
      simp [List.findIdx_cons]
    have hmod : modifyAt (fun it => { it with prediction := some (pred cur.description) })
        (done ++ cur :: todo) done.length
        = done ++ markIssue pred cur :: todo := by
      rw [modifyAt_append_length]
      rfl
    have hget2 : (done ++ markIssue pred cur :: todo)[done.length]?
        = some (markIssue pred cur) := by
      rw [List.getElem?_append_right (Nat.le_refl _)]
      simp
    simp only [aggStep, hget]
    rw [hjeq, hmod, hget2]
    simp only [markIssue, hrange, if_pos]

theorem aggLoop_run (pred : String → Nat) (todo : List Issue) :
    ∀ (done : List Issue) (cls : List Cluster),
      (∀ s, pred s < cls.length) →
      (∀ it ∈ done, it.prediction = some (pred it.description)) →
      aggLoop pred (cls, done ++ todo) done.length todo.length
        = some (specAccum pred cls todo, done ++ todo.map (markIssue pred)) := by
  induction todo with
  | nil =>
    intro done cls hK hdone
    simp [aggLoop, specAccum]
  | cons cur rest ih =>
    intro done cls hK hdone
    have hstep := aggStep_eq pred cls done rest cur hdone (hK cur.description)
    simp only [List.length_cons, aggLoop, hstep]
    have hlen : (done ++ [markIssue pred cur]).length = done.length + 1 := by simp
    have hassoc : done ++ markIssue pred cur :: rest
        = (done ++ [markIssue pred cur]) ++ rest := by simp
    have hdone2 : ∀ it ∈ done ++ [markIssue pred cur],
        it.prediction = some (pred it.description) := by
      intro it hit
      rcases List.mem_append.mp hit with h | h
      · exact hdone it h
      · rcases List.mem_singleton.mp h with rfl
        rfl
    have hK2 : ∀ s, pred s < (modifyAt (bumpCluster cur.votes) cls
        (pred cur.description)).length := by
      intro s
      rw [length_modifyAt]
      exact hK s
    have := ih (done ++ [markIssue pred cur])
      (modifyAt (bumpCluster cur.votes) cls (pred cur.description)) hK2 hdone2
    rw [hassoc, ← hlen]
    rw [this]
    simp [specAccum]

theorem aggregatePass_eq (pred : String → Nat) (cs : List Cluster)
    (iss : List Issue) (hK : ∀ s, pred s < cs.length) :
    aggregatePass pred cs iss
      = some (specAccum pred (resetCounters cs) iss, iss.map (markIssue pred)) := by
  have hlen : ∀ s, pred s < (resetCounters cs).length := by
    intro s
    simpa [resetCounters] using hK s
  have := aggLoop_run pred iss [] (resetCounters cs) hlen (by simp)
  simpa [aggregatePass] using this

theorem length_specAccum (pred : String → Nat) (iss : List Issue) :
    ∀ cls : List Cluster, (specAccum pred cls iss).length = cls.length := by
  induction iss with
  | nil => intro cls; rfl
  | cons it rest ih =>
    intro cls
    simp only [specAccum, List.foldl_cons]
    have := ih (modifyAt (bumpCluster it.votes) cls (pred it.description))
    simp only [specAccum] at this
    rw [this, length_modifyAt]

theorem resetCounters_modifyAt_bump (v q : Nat) (cls : List Cluster) :
    resetCounters (modifyAt (bumpCluster v) cls q) = resetCounters cls := by
  induction cls generalizing q with
  | nil => rfl
  | cons c rest ih =>
    cases q with
    | zero => rfl
    | succ n => simp [modifyAt, resetCounters] at ih ⊢; exact ih n

theorem resetCounters_specAccum (pred : String → Nat) (iss : List Issue) :
    ∀ cls : List Cluster, resetCounters (specAccum pred cls iss) = resetCounters cls := by
  induction iss with
  | nil => intro cls; rfl
  | cons it rest ih =>
    intro cls
    simp only [specAccum, List.foldl_cons]
    have := ih (modifyAt (bumpCluster it.votes) cls (pred it.description))
    simp only [specAccum] at this
    rw [this, resetCounters_modifyAt_bump]

theorem resetCounters_idem (cs : List Cluster) :
    resetCounters (resetCounters cs) = resetCounters cs := by
  simp [resetCounters, List.map_map]

theorem specAccum_map_mark (pred : String → Nat) (iss : List Issue) :
    ∀ cls : List Cluster,
      specAccum pred cls (iss.map (markIssue pred)) = specAccum pred cls iss := by
  induction iss with
  | nil => intro cls; rfl
  | cons it rest ih =>
    intro cls
    simp only [List.map_cons, specAccum, List.foldl_cons]
    have := ih (modifyAt (bumpCluster it.votes) cls (pred it.description))
    simp only [specAccum] at this
    exact this

theorem markIssue_idem (pred : String → Nat) (it : Issue) :
    markIssue pred (markIssue pred it) = markIssue pred it := rfl

theorem resetCounters_issues_sum (cs : List Cluster) :
    ((resetCounters cs).map (fun c => c.issues)).sum = 0 := by
  induction cs with
  | nil => rfl
  | cons c t ih => simpa [resetCounters] using ih

theorem resetCounters_votes_sum (cs : List Cluster) :
    ((resetCounters cs).map (fun c => c.votes)).sum = 0 := by
  induction cs with
  | nil => rfl
  | cons c t ih => simpa [resetCounters] using ih

theorem aggStep_counts (pred : String → Nat) (st st2 : List Cluster × List Issue)
    (i : Nat) (h : aggStep pred st i = some st2) :
    ∃ cur, st.2[i]? = some cur
      ∧ (st2.1.map (fun c => c.issues)).sum = (st.1.map (fun c => c.issues)).sum + 1
      ∧ (st2.1.map (fun c => c.votes)).sum = (st.1.map (fun c => c.votes)).sum + cur.votes
      ∧ st2.2.map (fun it => it.votes) = st.2.map (fun it => it.votes) := by
  simp only [aggStep] at h
  cases hget : st.2[i]? with
  | none => rw [hget] at h; simp at h
  | some cur =>
    rw [hget] at h
    simp only at h
    cases hget2 : (modifyAt (fun it => { it with prediction := some (pred cur.description) })
        st.2 (st.2.findIdx (fun x => decide (x = cur))))[i]? with
    | none => rw [hget2] at h; simp at h
    | some cur2 =>
      rw [hget2] at h
      simp only at h
      cases hpred : cur2.prediction with
      | none => rw [hpred] at h; simp at h
      | some q =>
        rw [hpred] at h
        simp only at h
        by_cases hq : q < st.1.length
        · rw [if_pos hq] at h
          injection h with h2
          subst h2
          refine ⟨cur, rfl, ?_, ?_, ?_⟩
          · dsimp only
            have := map_sum_modifyAt (fun c => c.issues) (bumpCluster cur.votes) st.1 q hq
            simp only [bumpCluster] at this
            omega
          · dsimp only
            have := map_sum_modifyAt (fun c => c.votes) (bumpCluster cur.votes) st.1 q hq
            simp only [bumpCluster] at this
            omega
          · dsimp only
            exact map_modifyAt_invariant (fun it => it.votes)
              (fun it => { it with prediction := some (pred cur.description) })
              st.2 _ (fun x => rfl)
        · rw [if_neg hq] at h
          simp at h

theorem aggLoop_counts (pred : String → Nat) :
    ∀ (fuel i : Nat) (st st2 : List Cluster × List Issue),
      aggLoop pred st i fuel = some st2 →
      (st2.1.map (fun c => c.issues)).sum = (st.1.map (fun c => c.issues)).sum + fuel
      ∧ (st2.1.map (fun c => c.votes)).sum
          = (st.1.map (fun c => c.votes)).sum
            + (((st.2.map (fun it => it.votes)).drop i).take fuel).sum
      ∧ st2.2.map (fun it => it.votes) = st.2.map (fun it => it.votes) := by
  intro fuel
  induction fuel with
  | zero =>
    intro i st st2 h
    simp only [aggLoop, Option.some.injEq] at h
    subst h
    simp
  | succ n ih =>
    intro i st st2 h
    simp only [aggLoop] at h
    cases hs : aggStep pred st i with
    | none => rw [hs] at h; simp at h
    | some stm =>
      rw [hs] at h
      simp only at h
      obtain ⟨cur, hget, hi, hv, hproj⟩ := aggStep_counts pred st stm i hs
      obtain ⟨ih1, ih2, ih3⟩ := ih (i + 1) stm st2 h
      have hcurv : (st.2.map (fun it => it.votes))[i]? = some cur.votes := by
        rw [List.getElem?_map, hget]
        rfl
      have hlt : i < (st.2.map (fun it => it.votes)).length := by
        by_contra hge
        rw [List.getElem?_eq_none (Nat.le_of_not_lt hge)] at hcurv
        exact absurd hcurv (by simp)
      have hdrop : (st.2.map (fun it => it.votes)).drop i
          = cur.votes :: (st.2.map (fun it => it.votes)).drop (i + 1) := by
        rw [List.drop_eq_getElem_cons hlt]
        congr 1
        have := List.getElem?_eq_getElem hlt
        rw [this] at hcurv
        exact (Option.some.injEq _ _).mp hcurv
      refine ⟨by omega, ?_, by rw [ih3, hproj]⟩
      rw [hdrop, List.take_succ_cons, List.sum_cons]
      rw [ih2, hproj, hv]
      omega

/-! ## Lemmas for the cluster labeler -/

theorem indexOf_getElem_nodup (l : List String) (hnd : l.Nodup) (i : Nat)
    (h : i < l.length) : l.indexOf l[i] = i := by
  induction l generalizing i with
  | nil => simp at h
  | cons x xs ih =>
    rcases List.nodup_cons.mp hnd with ⟨hx, hxs⟩
    cases i with
    | zero => simp [List.indexOf_cons, List.findIdx_cons]
    | succ n =>
      have hn : n < xs.length := by simpa using h
      have hne : (x == xs[n]) = false := by
        simp only [beq_eq_false_iff_ne, ne_eq]
        intro hxe
        exact hx (hxe ▸ List.getElem_mem hn)
      simp only [List.getElem_cons_succ, List.indexOf_cons, hne, cond_false]
      rw [ih hxs n hn]

theorem argsortAsc_spec (w : List ℚ) : isArgsortAsc w (argsortAsc w) := by
  constructor
  · exact sortStable_perm _ _
  · have htot : ∀ i j : Nat, decide (w.getD i 0 ≤ w.getD j 0) = true
        ∨ decide (w.getD j 0 ≤ w.getD i 0) = true := by
      intro i j
      simp only [decide_eq_true_eq]
      exact le_total _ _
    have htrans : ∀ i j k : Nat, decide (w.getD i 0 ≤ w.getD j 0) = true
        → decide (w.getD j 0 ≤ w.getD k 0) = true
        → decide (w.getD i 0 ≤ w.getD k 0) = true := by
      intro i j k
      simp only [decide_eq_true_eq]
      exact le_trans
    have hA := sortStable_pairwise htot htrans (List.range w.length)
      (List.pairwise_lt_range _)
    refine hA.imp ?_
    intro i j hij
    exact of_decide_eq_true hij.1

/-! ## Claim theorems -/

/-- Claim C1 (code divergence): the claim states that when a metric's
maximum equals its minimum across all clusters that metric's score is `0`
for every cluster and scoring completes without a division error.  The
notebook's scoring cell has no such guard: with two clusters of equal
`issues` count (here both `1`, while the votes differ so the vote metric is
non-degenerate) the expression `(issues - min_issues) / (max_issues -
min_issues)` divides by zero and the pass raises instead of completing —
modelled by `scoreClusters` returning `none` on this input. -/
theorem scoring_degenerate_is_error :
    scoreClusters 1 1
      [{ index := 0, features := [], votes := 0, issues := 1 },
       { index := 1, features := [], votes := 5, issues := 1 }] = none := by
  decide

/-- Claim C2: for every cluster of a successful scoring pass,
`vote_score = vote_multiplier * (votes - min_votes) / (max_votes - min_votes)`,
`issue_score = issue_multiplier * (issues - min_issues) / (max_issues - min_issues)`
and `score = (vote_score + issue_score) / 2`, the min/max being taken over
all clusters; with the default multipliers `1` all three scores lie in
`[0, 1]`. -/
theorem scoring_formulas (vm im : ℚ) (cs : List Cluster) (out : List ScoredCluster)
    (h : scoreClusters vm im cs = some out) :
    ∀ sc ∈ out,
      sc.vote_score = vm * (((sc.votes : ℚ) - (natMinL (cs.map (fun c => c.votes)) : ℚ))
        / ((natMaxL (cs.map (fun c => c.votes)) : ℚ)
            - (natMinL (cs.map (fun c => c.votes)) : ℚ)))
      ∧ sc.issue_score = im * (((sc.issues : ℚ) - (natMinL (cs.map (fun c => c.issues)) : ℚ))
        / ((natMaxL (cs.map (fun c => c.issues)) : ℚ)
            - (natMinL (cs.map (fun c => c.issues)) : ℚ)))
      ∧ sc.score = (sc.vote_score + sc.issue_score) / 2
      ∧ (vm = 1 → 0 ≤ sc.vote_score ∧ sc.vote_score ≤ 1)
      ∧ (im = 1 → 0 ≤ sc.issue_score ∧ sc.issue_score ≤ 1)
      ∧ (vm = 1 → im = 1 → 0 ≤ sc.score ∧ sc.score ≤ 1) := by
  cases cs with
  | nil => simp [scoreClusters] at h
  | cons c0 rest =>
    simp only [scoreClusters] at h
    by_cases hdeg : natMaxL ((c0 :: rest).map (fun c => c.votes))
          = natMinL ((c0 :: rest).map (fun c => c.votes))
        ∨ natMaxL ((c0 :: rest).map (fun c => c.issues))
          = natMinL ((c0 :: rest).map (fun c => c.issues))
    · rw [if_pos hdeg] at h
      simp at h
    · rw [if_neg hdeg] at h
      injection h with hout
      push_neg at hdeg
      obtain ⟨hnV, hnI⟩ := hdeg
      intro sc hsc
      rw [← hout] at hsc
      obtain ⟨c, hc, rfl⟩ := List.mem_map.mp hsc
      have hvmem : c.votes ∈ (c0 :: rest).map (fun c => c.votes) :=
        List.mem_map_of_mem _ hc
      have himem : c.issues ∈ (c0 :: rest).map (fun c => c.issues) :=
        List.mem_map_of_mem _ hc
      have hv1 : natMinL ((c0 :: rest).map (fun c => c.votes)) ≤ c.votes :=
        natMinL_le_of_mem hvmem
      have hv2 : c.votes ≤ natMaxL ((c0 :: rest).map (fun c => c.votes)) :=
        le_natMaxL_of_mem hvmem
      have hi1 : natMinL ((c0 :: rest).map (fun c => c.issues)) ≤ c.issues :=
        natMinL_le_of_mem himem
      have hi2 : c.issues ≤ natMaxL ((c0 :: rest).map (fun c => c.issues)) :=
        le_natMaxL_of_mem himem
      have hvlt : (natMinL ((c0 :: rest).map (fun c => c.votes)) : ℚ)
          < (natMaxL ((c0 :: rest).map (fun c => c.votes)) : ℚ) := by
        exact_mod_cast Nat.lt_of_le_of_ne (hv1.trans hv2) (Ne.symm hnV)
      have hilt : (natMinL ((c0 :: rest).map (fun c => c.issues)) : ℚ)
          < (natMaxL ((c0 :: rest).map (fun c => c.issues)) : ℚ) := by
        exact_mod_cast Nat.lt_of_le_of_ne (hi1.trans hi2) (Ne.symm hnI)
      have hvfrac0 : 0 ≤ ((c.votes : ℚ)
            - (natMinL ((c0 :: rest).map (fun c => c.votes)) : ℚ))
          / ((natMaxL ((c0 :: rest).map (fun c => c.votes)) : ℚ)
            - (natMinL ((c0 :: rest).map (fun c => c.votes)) : ℚ)) := by
        apply div_nonneg
        · rw [sub_nonneg]
          exact_mod_cast hv1
        · rw [sub_nonneg]
          exact hvlt.le
      have hvfrac1 : ((c.votes : ℚ)
            - (natMinL ((c0 :: rest).map (fun c => c.votes)) : ℚ))
          / ((natMaxL ((c0 :: rest).map (fun c => c.votes)) : ℚ)
            - (natMinL ((c0 :: rest).map (fun c => c.votes)) : ℚ)) ≤ 1 := by
        rw [div_le_one (by rw [sub_pos]; exact hvlt)]
        apply sub_le_sub_right
        exact_mod_cast hv2
      have hifrac0 : 0 ≤ ((c.issues : ℚ)
            - (natMinL ((c0 :: rest).map (fun c => c.issues)) : ℚ))
          / ((natMaxL ((c0 :: rest).map (fun c => c.issues)) : ℚ)
            - (natMinL ((c0 :: rest).map (fun c => c.issues)) : ℚ)) := by
        apply div_nonneg
        · rw [sub_nonneg]
          exact_mod_cast hi1
        · rw [sub_nonneg]
          exact hilt.le
      have hifrac1 : ((c.issues : ℚ)
            - (natMinL ((c0 :: rest).map (fun c => c.issues)) : ℚ))
          / ((natMaxL ((c0 :: rest).map (fun c => c.issues)) : ℚ)
            - (natMinL ((c0 :: rest).map (fun c => c.issues)) : ℚ)) ≤ 1 := by
        rw [div_le_one (by rw [sub_pos]; exact hilt)]
        apply sub_le_sub_right
        exact_mod_cast hi2
      refine ⟨rfl, rfl, rfl, ?_, ?_, ?_⟩
      · intro hvm
        subst hvm
        dsimp only
        rw [one_mul]
        exact ⟨hvfrac0, hvfrac1⟩
      · intro him
        subst him
        dsimp only
        rw [one_mul]
        exact ⟨hifrac0, hifrac1⟩
      · intro hvm him
        subst hvm
        subst him
        dsimp only
        rw [one_mul, one_mul]
        constructor
        · positivity
        · rw [div_le_one (by norm_num)]
          linarith

/-- Witness for C2: a concrete two-cluster scoring run with both metric
ranges non-degenerate, at the default multipliers, instantiated at the
second output cluster. -/
theorem scoring_formulas_w :
    (ScoredCluster.mk 1 [] 5 2 1 1 1).vote_score
        = 1 * ((((ScoredCluster.mk 1 [] 5 2 1 1 1).votes : ℚ)
          - (natMinL (([Cluster.mk 0 [] 0 1, Cluster.mk 1 [] 5 2]).map
              (fun c => c.votes)) : ℚ))
        / ((natMaxL (([Cluster.mk 0 [] 0 1, Cluster.mk 1 [] 5 2]).map
              (fun c => c.votes)) : ℚ)
            - (natMinL (([Cluster.mk 0 [] 0 1, Cluster.mk 1 [] 5 2]).map
              (fun c => c.votes)) : ℚ)))
    ∧ (ScoredCluster.mk 1 [] 5 2 1 1 1).issue_score
        = 1 * ((((ScoredCluster.mk 1 [] 5 2 1 1 1).issues : ℚ)
          - (natMinL (([Cluster.mk 0 [] 0 1, Cluster.mk 1 [] 5 2]).map
              (fun c => c.issues)) : ℚ))
        / ((natMaxL (([Cluster.mk 0 [] 0 1, Cluster.mk 1 [] 5 2]).map
              (fun c => c.issues)) : ℚ)
            - (natMinL (([Cluster.mk 0 [] 0 1, Cluster.mk 1 [] 5 2]).map
              (fun c => c.issues)) : ℚ)))
    ∧ (ScoredCluster.mk 1 [] 5 2 1 1 1).score
        = ((ScoredCluster.mk 1 [] 5 2 1 1 1).vote_score
            + (ScoredCluster.mk 1 [] 5 2 1 1 1).issue_score) / 2
    ∧ ((1 : ℚ) = 1 → 0 ≤ (ScoredCluster.mk 1 [] 5 2 1 1 1).vote_score
        ∧ (ScoredCluster.mk 1 [] 5 2 1 1 1).vote_score ≤ 1)
    ∧ ((1 : ℚ) = 1 → 0 ≤ (ScoredCluster.mk 1 [] 5 2 1 1 1).issue_score
        ∧ (ScoredCluster.mk 1 [] 5 2 1 1 1).issue_score ≤ 1)
    ∧ ((1 : ℚ) = 1 → (1 : ℚ) = 1 → 0 ≤ (ScoredCluster.mk 1 [] 5 2 1 1 1).score
        ∧ (ScoredCluster.mk 1 [] 5 2 1 1 1).score ≤ 1) :=
  scoring_formulas 1 1
    [Cluster.mk 0 [] 0 1, Cluster.mk 1 [] 5 2]
    [ScoredCluster.mk 0 [] 0 1 0 0 0, ScoredCluster.mk 1 [] 5 2 1 1 1]
    (by with_unfolding_all decide)
    (ScoredCluster.mk 1 [] 5 2 1 1 1)
    (List.mem_cons_of_mem _ (List.mem_cons_self _ _))

/-- Claim C3: the ranked output is a permutation of the scored clusters,
sorted descending by `score`; clusters with equal scores appear in ascending
index order (Python's `sorted` is stable and the cluster list is built in
index order), and since indices are distinct no two entries of the ranking
compare equal — the ranking is a total order. -/
theorem ranking_total_order (scs : List ScoredCluster)
    (hidx : scs.Pairwise (fun a b => a.index < b.index)) :
    (clustersByScore scs).Perm scs
    ∧ (clustersByScore scs).Pairwise (fun a b =>
        b.score ≤ a.score ∧ (a.score = b.score → a.index < b.index)
        ∧ ¬(a.score = b.score ∧ a.index = b.index)) := by
  have htot : ∀ x y : ScoredCluster, scoreLe x y = true ∨ scoreLe y x = true := by
    intro x y
    simp only [scoreLe, decide_eq_true_eq]
    exact le_total y.score x.score
  have htrans : ∀ x y z : ScoredCluster,
      scoreLe x y = true → scoreLe y z = true → scoreLe x z = true := by
    intro x y z
    simp only [scoreLe, decide_eq_true_eq]
    intro h1 h2
    exact h2.trans h1
  refine ⟨sortStable_perm _ _, ?_⟩
  have hp := sortStable_pairwise htot htrans scs hidx
  refine hp.imp ?_
  intro a b hab
  obtain ⟨h1, h2⟩ := hab
  simp only [scoreLe, decide_eq_true_eq] at h1 h2
  refine ⟨h1, fun heq => h2 heq.le, ?_⟩
  intro hand
  obtain ⟨heq, hieq⟩ := hand
  exact absurd hieq (Nat.ne_of_lt (h2 heq.le))

/-- Witness for C3: two scored clusters in index order with distinct
scores. -/
theorem ranking_total_order_w :
    (clustersByScore [ScoredCluster.mk 0 [] 0 1 0 0 0,
        ScoredCluster.mk 1 [] 5 2 1 1 1]).Perm
      [ScoredCluster.mk 0 [] 0 1 0 0 0, ScoredCluster.mk 1 [] 5 2 1 1 1]
    ∧ (clustersByScore [ScoredCluster.mk 0 [] 0 1 0 0 0,
        ScoredCluster.mk 1 [] 5 2 1 1 1]).Pairwise (fun a b =>
        b.score ≤ a.score ∧ (a.score = b.score → a.index < b.index)
        ∧ ¬(a.score = b.score ∧ a.index = b.index)) :=
  ranking_total_order
    [ScoredCluster.mk 0 [] 0 1 0 0 0, ScoredCluster.mk 1 [] 5 2 1 1 1]
    (by decide)

/-- Claim C6 fails as stated: on a tie the labeler does *not* put the
lexically earlier term first.  With the alphabetical vocabulary
`["aa", "bb"]` and equal centroid weights, the ascending argsort is
`[0, 1]` (numpy uses an insertion sort on arrays this small, so this is its
actual output here), the `[::-1]` reversal yields `[1, 0]`, and the labels
are `["bb", "aa"]` — not `["aa", "bb"]` as the claim's tie rule requires. -/
theorem labeler_ties_counterexample :
    clusterFeatures ["aa", "bb"] [(1 : ℚ), 1] 10 = ["bb", "aa"]
    ∧ (["bb", "aa"] : List String) ≠ ["aa", "bb"] := by
  constructor
  · with_unfolding_all decide
  · decide

/-- Claim C6, amended: for every admissible result of numpy's argsort on
the centroid row (any permutation of the column indices along which the
weights are non-decreasing — the default sort kind is unstable, so the
order of equal weights is unspecified), the labeler returns `n` vocabulary
terms ordered by non-increasing centroid weight, the reversed argsort is a
permutation of all column indices, and every kept index carries at least
the weight of every dropped index — it returns `n` terms with the largest
weights.  No tie rule holds: equal-weight terms may appear in either
order. -/
theorem labeler_top_terms (terms : List String) (w : List ℚ) (ord : List Nat)
    (n : Nat) (hlen : terms.length = w.length)
    (hsorted : terms.Pairwise (fun s t => s < t))
    (hord : isArgsortAsc w ord) :
    (ord.reverse).Perm (List.range w.length)
    ∧ (ord.reverse).Pairwise (fun i j => w.getD j 0 ≤ w.getD i 0)
    ∧ (∀ i ∈ (ord.reverse).take n,
        ∀ j ∈ (ord.reverse).drop n, w.getD j 0 ≤ w.getD i 0)
    ∧ (clusterFeaturesOf terms ord n).Pairwise (fun s t =>
        w.getD (terms.indexOf t) 0 ≤ w.getD (terms.indexOf s) 0) := by
  obtain ⟨hperm0, hpw⟩ := hord
  have hperm : (ord.reverse).Perm (List.range w.length) :=
    (List.reverse_perm _).trans hperm0
  have hrev : (ord.reverse).Pairwise (fun i j => w.getD j 0 ≤ w.getD i 0) := by
    rw [List.pairwise_reverse]
    exact hpw
  have hcross : ∀ i ∈ (ord.reverse).take n,
      ∀ j ∈ (ord.reverse).drop n, w.getD j 0 ≤ w.getD i 0 := by
    have hsplit := hrev
    rw [← List.take_append_drop n ord.reverse] at hsplit
    obtain ⟨-, -, hc⟩ := List.pairwise_append.mp hsplit
    intro i hi j hj
    exact hc i hi j hj
  refine ⟨hperm, hrev, hcross, ?_⟩
  have hnd : terms.Nodup := hsorted.imp ne_of_lt
  have htake : ((ord.reverse).take n).Pairwise (fun i j =>
      w.getD j 0 ≤ w.getD i 0) :=
    hrev.sublist (List.take_sublist n _)
  have hmemlt : ∀ i ∈ (ord.reverse).take n, i < terms.length := by
    intro i hi
    rw [hlen, ← List.mem_range]
    exact hperm.mem_iff.mp (List.mem_of_mem_take hi)
  unfold clusterFeaturesOf
  rw [List.pairwise_map]
  refine List.Pairwise.imp_of_mem ?_ htake
  intro i j hi hj hij
  have hi' : i < terms.length := hmemlt i hi
  have hj' : j < terms.length := hmemlt j hj
  have hgi : terms.getD i "" = terms[i] := by
    simp [List.getD_eq_getElem?_getD, List.getElem?_eq_getElem hi']
  have hgj : terms.getD j "" = terms[j] := by
    simp [List.getD_eq_getElem?_getD, List.getElem?_eq_getElem hj']
  have hidxi : terms.indexOf (terms.getD i "") = i := by
    rw [hgi]
    exact indexOf_getElem_nodup terms hnd i hi'
  have hidxj : terms.indexOf (terms.getD j "") = j := by
    rw [hgj]
    exact indexOf_getElem_nodup terms hnd j hj'
  rw [hidxi, hidxj]
  exact hij

/-- Witness for C6 (amended): a two-term vocabulary with equal weights,
instantiated at the concrete argsort realization of the pipeline (which is
one admissible `isArgsortAsc` result, by `argsortAsc_spec`). -/
theorem labeler_top_terms_w :
    ((argsortAsc [(1 : ℚ), 1]).reverse).Perm (List.range ([(1 : ℚ), 1]).length)
    ∧ ((argsortAsc [(1 : ℚ), 1]).reverse).Pairwise (fun i j =>
        ([(1 : ℚ), 1]).getD j 0 ≤ ([(1 : ℚ), 1]).getD i 0)
    ∧ (∀ i ∈ ((argsortAsc [(1 : ℚ), 1]).reverse).take 10,
        ∀ j ∈ ((argsortAsc [(1 : ℚ), 1]).reverse).drop 10,
          ([(1 : ℚ), 1]).getD j 0 ≤ ([(1 : ℚ), 1]).getD i 0)
    ∧ (clusterFeaturesOf ["aa", "bb"] (argsortAsc [(1 : ℚ), 1]) 10).Pairwise
        (fun s t =>
          ([(1 : ℚ), 1]).getD ((["aa", "bb"] : List String).indexOf t) 0
            ≤ ([(1 : ℚ), 1]).getD ((["aa", "bb"] : List String).indexOf s) 0) :=
  labeler_top_terms ["aa", "bb"] [(1 : ℚ), 1] (argsortAsc [(1 : ℚ), 1]) 10 rfl
    (by with_unfolding_all decide) (argsortAsc_spec [(1 : ℚ), 1])

/-- Claim C4: the aggregation pass resets all cluster counters before
accumulating, so running it a second time over the unchanged issue set
reproduces exactly the same cluster counters and issue records — no totals
accumulate across repeated runs.  (The hypothesis asks only that every
predicted index is in range, i.e. that the first pass does not die with an
`IndexError`.) -/
theorem aggregation_idempotent (pred : String → Nat) (cs : List Cluster)
    (iss : List Issue) (hK : ∀ s, pred s < cs.length) :
    ∃ cs1 iss1, aggregatePass pred cs iss = some (cs1, iss1)
      ∧ aggregatePass pred cs1 iss1 = some (cs1, iss1) := by
  refine ⟨specAccum pred (resetCounters cs) iss, iss.map (markIssue pred),
    aggregatePass_eq pred cs iss hK, ?_⟩
  have hK1 : ∀ s, pred s < (specAccum pred (resetCounters cs) iss).length := by
    intro s
    rw [length_specAccum]
    simpa [resetCounters] using hK s
  rw [aggregatePass_eq pred _ _ hK1]
  have hmark : (iss.map (markIssue pred)).map (markIssue pred)
      = iss.map (markIssue pred) := by
    rw [List.map_map]
    exact List.map_congr_left (fun it _ => markIssue_idem pred it)
  have hacc : specAccum pred (resetCounters (specAccum pred (resetCounters cs) iss))
        (iss.map (markIssue pred))
      = specAccum pred (resetCounters cs) iss := by
    rw [specAccum_map_mark, resetCounters_specAccum, resetCounters_idem]
  rw [hmark, hacc]

/-- Witness for C4: a one-cluster, one-issue aggregation run twice. -/
theorem aggregation_idempotent_w :
    ∃ cs1 iss1,
      aggregatePass (fun _ => 0)
          [{ index := 0, features := [], votes := 0, issues := 0 }]
          [{ id := 1, votes := 2, dirty_dsecription := "x", description := "x",
              prediction := none }] = some (cs1, iss1)
      ∧ aggregatePass (fun _ => 0) cs1 iss1 = some (cs1, iss1) :=
  aggregation_idempotent (fun _ => 0)
    [{ index := 0, features := [], votes := 0, issues := 0 }]
    [{ id := 1, votes := 2, dirty_dsecription := "x", description := "x",
        prediction := none }]
    (fun _ => Nat.one_pos)

/-- Claim C5: with `K` trained centroids (`K ≥ 1`, however many Lloyd
iterations were run), the predicted cluster index of any vector is in
`[0, K)` — every issue maps to one of the `K` existing clusters. -/
theorem prediction_in_range (rows init : List (List ℚ)) (fuel k : Nat)
    (v : List ℚ) (hk : 0 < k) (hlen : init.length = k) :
    assign (lloydLoop rows init fuel) v < k := by
  have hlc : (lloydLoop rows init fuel).length = k := by
    rw [lloydLoop_length]
    exact hlen
  have hne : (lloydLoop rows init fuel).map (fun c => sqDist c v) ≠ [] := by
    intro hnil
    have := congrArg List.length hnil
    simp [hlc] at this
    omega
  have := idxOfMin_lt_length hne
  simpa [assign, hlc] using this

/-- Witness for C5: a single empty centroid, `K = 1`. -/
theorem prediction_in_range_w : assign (lloydLoop [] [[]] 0) [] < 1 :=
  prediction_in_range [] [[]] 0 1 [] Nat.one_pos rfl

/-- Claim C7: training reports `InvalidClusterCount` exactly when `K < 1`
or `K` exceeds the number of distinct documents with non-zero vectors, and
succeeds exactly when `K` is inside those bounds. -/
theorem invalid_cluster_count_characterization (k : Nat) (rows : List (List ℚ)) :
    (validateClusterCount k rows = Except.error ClusterTrainError.invalidClusterCount
      ↔ (k < 1 ∨ distinctNonzeroCount rows < k))
    ∧ (validateClusterCount k rows = Except.ok ()
      ↔ (1 ≤ k ∧ k ≤ distinctNonzeroCount rows)) := by
  unfold validateClusterCount
  split
  next h =>
    constructor
    · exact ⟨fun _ => h, fun _ => rfl⟩
    · constructor
      · intro he
        exact absurd he (by simp)
      · intro ⟨h1, h2⟩
        omega
  next h =>
    constructor
    · constructor
      · intro he
        exact absurd he (by simp)
      · intro hc
        exact absurd hc h
    · constructor
      · intro _
        omega
      · intro _
        rfl

/-- Claim C8: the vectorizer model is a pure function of its corpus and
configuration — fitting twice on an identical corpus with identical
configuration yields the identical vocabulary ordering and weights, and
transforming the same text twice yields identical vectors. -/
theorem vectorizer_deterministic (cfg1 cfg2 : VecConfig)
    (corpus1 corpus2 : List String) (t1 t2 : String)
    (hc : cfg1 = cfg2) (hco : corpus1 = corpus2) (ht : t1 = t2) :
    fitVectorizer cfg1 corpus1 = fitVectorizer cfg2 corpus2
    ∧ transform (fitVectorizer cfg1 corpus1) t1
      = transform (fitVectorizer cfg2 corpus2) t2 := by
  subst hc
  subst hco
  subst ht
  exact ⟨rfl, rfl⟩

/-- Witness for C8: the demonstration corpus and configuration. -/
theorem vectorizer_deterministic_w :
    fitVectorizer demoConfig demoCorpus = fitVectorizer demoConfig demoCorpus
    ∧ transform (fitVectorizer demoConfig demoCorpus) "api"
      = transform (fitVectorizer demoConfig demoCorpus) "api" :=
  vectorizer_deterministic demoConfig demoConfig demoCorpus demoCorpus
    "api" "api" rfl rfl rfl

/-- Claim C10: after any successful aggregation pass, the cluster `issues`
counters sum to the number of issues processed and the cluster `votes`
counters sum to the total votes of those issues — every issue and its votes
are counted exactly once. -/
theorem aggregation_totals (pred : String → Nat) (cs : List Cluster)
    (iss : List Issue) (cs1 : List Cluster) (iss1 : List Issue)
    (h : aggregatePass pred cs iss = some (cs1, iss1)) :
    (cs1.map (fun c => c.issues)).sum = iss.length
    ∧ (cs1.map (fun c => c.votes)).sum = (iss.map (fun it => it.votes)).sum := by
  have h' : aggLoop pred (resetCounters cs, iss) 0 iss.length = some (cs1, iss1) := h
  obtain ⟨h1, h2, _⟩ := aggLoop_counts pred iss.length 0 _ _ h'
  dsimp only at h1 h2
  have hzi := resetCounters_issues_sum cs
  have hzv := resetCounters_votes_sum cs
  constructor
  · omega
  · rw [h2, hzv, List.drop_zero]
    rw [List.take_of_length_le (by simp)]
    omega

set_option maxRecDepth 1000000 in
/-- Claim C9: on the corpus `["upgrade the api please", "please upgrade api",
"add a dark mode"]` with votes `[5, 3, 0]`, `K = 2` and unigram features,
for either admissible k-means++ initialization (two distinct data points,
in either order) the two API issues land in one cluster and the dark-mode
issue in the other; the API cluster has `issues = 2`, `votes = 8`,
`vote_score = issue_score = score = 1` and is ranked first, while the
dark-mode cluster has `issues = 1`, `votes = 0` and `score = 0`. -/
theorem end_to_end_demo (a b : List ℚ) (ha : a ∈ demoRows) (hb : b ∈ demoRows)
    (hab : a ≠ b) :
    ∃ ia ib : Nat, ia ≠ ib ∧ ia < 2 ∧ ib < 2
      ∧ demoPredict [a, b] "upgrade the api please" = ia
      ∧ demoPredict [a, b] "please upgrade api" = ia
      ∧ demoPredict [a, b] "add a dark mode" = ib
      ∧ ((aggregatePass (demoPredict [a, b]) (demoClusters [a, b]) demoIssues).bind
          (fun st => st.1[ia]?)).map (fun c => (c.issues, c.votes)) = some (2, 8)
      ∧ ((aggregatePass (demoPredict [a, b]) (demoClusters [a, b]) demoIssues).bind
          (fun st => st.1[ib]?)).map (fun c => (c.issues, c.votes)) = some (1, 0)
      ∧ (((aggregatePass (demoPredict [a, b]) (demoClusters [a, b]) demoIssues).bind
          (fun st => scoreClusters 1 1 st.1)).bind (fun out => out[ia]?)).map
            (fun sc => (sc.vote_score, sc.issue_score, sc.score)) = some (1, 1, 1)
      ∧ (((aggregatePass (demoPredict [a, b]) (demoClusters [a, b]) demoIssues).bind
          (fun st => scoreClusters 1 1 st.1)).bind (fun out => out[ib]?)).map
            (fun sc => sc.score) = some 0
      ∧ (((aggregatePass (demoPredict [a, b]) (demoClusters [a, b]) demoIssues).bind
          (fun st => scoreClusters 1 1 st.1)).bind
            (fun out => (clustersByScore out).head?)).map
            (fun sc => (sc.index, sc.score)) = some (ia, 1) := by
  have h01 : transform demoVectorizer "please upgrade api"
      = transform demoVectorizer "upgrade the api please" := by
    with_unfolding_all decide
  have hmem : ∀ x ∈ demoRows, x = transform demoVectorizer "upgrade the api please"
      ∨ x = transform demoVectorizer "add a dark mode" := by
    intro x hx
    simp only [demoRows, demoCorpus, List.map_cons, List.map_nil] at hx
    rcases List.mem_cons.mp hx with h | hx
    · exact Or.inl h
    rcases List.mem_cons.mp hx with h | hx
    · exact Or.inl (h.trans h01)
    rcases List.mem_cons.mp hx with h | hx
    · exact Or.inr h
    · simp at hx
  rcases hmem a ha with ha' | ha' <;> rcases hmem b hb with hb' | hb'
  · exact absurd (ha'.trans hb'.symm) hab
  · subst ha'
    subst hb'
    exact ⟨0, 1, by with_unfolding_all decide⟩
  · subst ha'
    subst hb'
    exact ⟨1, 0, by with_unfolding_all decide⟩
  · exact absurd (ha'.trans hb'.symm) hab

set_option maxRecDepth 1000000 in
/-- Witness for C9: the initialization consisting of the first and third
rows of the document-term matrix. -/
theorem end_to_end_demo_w :
    ∃ ia ib : Nat, ia ≠ ib ∧ ia < 2 ∧ ib < 2
      ∧ demoPredict [demoRows.getD 0 [], demoRows.getD 2 []]
          "upgrade the api please" = ia
      ∧ demoPredict [demoRows.getD 0 [], demoRows.getD 2 []]
          "please upgrade api" = ia
      ∧ demoPredict [demoRows.getD 0 [], demoRows.getD 2 []]
          "add a dark mode" = ib
      ∧ ((aggregatePass (demoPredict [demoRows.getD 0 [], demoRows.getD 2 []])
            (demoClusters [demoRows.getD 0 [], demoRows.getD 2 []]) demoIssues).bind
          (fun st => st.1[ia]?)).map (fun c => (c.issues, c.votes)) = some (2, 8)
      ∧ ((aggregatePass (demoPredict [demoRows.getD 0 [], demoRows.getD 2 []])
            (demoClusters [demoRows.getD 0 [], demoRows.getD 2 []]) demoIssues).bind
          (fun st => st.1[ib]?)).map (fun c => (c.issues, c.votes)) = some (1, 0)
      ∧ (((aggregatePass (demoPredict [demoRows.getD 0 [], demoRows.getD 2 []])
            (demoClusters [demoRows.getD 0 [], demoRows.getD 2 []]) demoIssues).bind
          (fun st => scoreClusters 1 1 st.1)).bind (fun out => out[ia]?)).map
            (fun sc => (sc.vote_score, sc.issue_score, sc.score)) = some (1, 1, 1)
      ∧ (((aggregatePass (demoPredict [demoRows.getD 0 [], demoRows.getD 2 []])
            (demoClusters [demoRows.getD 0 [], demoRows.getD 2 []]) demoIssues).bind
          (fun st => scoreClusters 1 1 st.1)).bind (fun out => out[ib]?)).map
            (fun sc => sc.score) = some 0
      ∧ (((aggregatePass (demoPredict [demoRows.getD 0 [], demoRows.getD 2 []])
            (demoClusters [demoRows.getD 0 [], demoRows.getD 2 []]) demoIssues).bind
          (fun st => scoreClusters 1 1 st.1)).bind
            (fun out => (clustersByScore out).head?)).map
            (fun sc => (sc.index, sc.score)) = some (ia, 1) :=
  end_to_end_demo (demoRows.getD 0 []) (demoRows.getD 2 [])
    (by with_unfolding_all decide) (by with_unfolding_all decide)
    (by with_unfolding_all decide)

/-- Witness for C10: one cluster, one issue with two votes. -/
theorem aggregation_totals_w :
    (([Cluster.mk 0 [] 2 1]).map (fun c => c.issues)).sum
      = ([Issue.mk 1 2 "x" "x" none]).length
    ∧ (([Cluster.mk 0 [] 2 1]).map (fun c => c.votes)).sum
      = (([Issue.mk 1 2 "x" "x" none]).map (fun it => it.votes)).sum :=
  aggregation_totals (fun _ => 0)
    [Cluster.mk 0 [] 0 0]
    [Issue.mk 1 2 "x" "x" none]
    [Cluster.mk 0 [] 2 1]
    [Issue.mk 1 2 "x" "x" (some 0)]
    (by decide)

end GooglePM
